import Mathlib

/-!
Verification of the shape-geometry core of `labelme/shape.py`: the
point/segment store, the incremental curve segment builder, and the
geometric queries (`nearestVertex`, `nearestEdge`, `containsPoint`,
`makePath`, `boundingRect`), together with a reference-counted heap model
of `Shape.copy` (deep copy).

Conventions of the embedding:
* Coordinates are exact rationals (`ℚ`), standing in for the floating
  point coordinates of `QPointF`.
* A slot of the Python point list holds a `PyVal`: either a genuine point
  `PyVal.pt x y`, or `PyVal.intZero`, the integer `0` that is the default
  value of the `new_p` parameter of `addPoint`/`createSegment` and that the
  code inserts into the list verbatim when the caller omits `new_p`.
* Fallible Python operations (index errors, type errors) are embedded as
  `Except Err` computations.
* Python sequence indexing (`l[i]`, `l.pop(i)`, `l.insert(i, x)`) is
  embedded with its real semantics: negative indices count from the end,
  `insert` clamps instead of failing.
-/

namespace Labelme

inductive Err where
  | indexError
  | typeError
  deriving DecidableEq, Repr

instance exceptDecEq {ε α : Type} [DecidableEq ε] [DecidableEq α] :
    DecidableEq (Except ε α)
  | .ok a, .ok b =>
    if h : a = b then isTrue (by rw [h])
    else isFalse (by intro hc; injection hc; exact h ‹_›)
  | .ok _, .error _ => isFalse (by intro h; exact Except.noConfusion h)
  | .error _, .ok _ => isFalse (by intro h; exact Except.noConfusion h)
  | .error e, .error f =>
    if h : e = f then isTrue (by rw [h])
    else isFalse (by intro hc; injection hc; exact h ‹_›)

/-- An exact-rational 2D coordinate, modelling `QPointF`. -/
abbrev Point := ℚ × ℚ

/-- A value stored in the Python list `Shape.points`: a genuine point, or the
integer `0` that `addPoint`/`createSegment` receive as the default of their
`new_p` parameter and insert into the list unchecked. -/
inductive PyVal where
  | pt (x y : ℚ)
  | intZero
  deriving DecidableEq, Repr

/-- Reading the coordinates of a stored value, as Qt would: an `x()`/`y()`
attribute access on the integer `0` raises. -/
def PyVal.asPoint : PyVal → Except Err Point
  | .pt x y => .ok (x, y)
  | .intZero => .error .typeError

/-- The closed set of shape types accepted by the validated
`shape_type` setter. -/
inductive ShapeType where
  | polygon
  | rectangle
  | point
  | line
  | circle
  | linestrip
  | curve
  deriving DecidableEq, Repr

/-- The mutable state of a `Shape` object: `points`, `segments` (pairs
`(seg_begin, seg_len)`), the `points_in_segments` counter and the
`_closed` flag. -/
structure Shape where
  shape_type : ShapeType
  points : List PyVal
  segments : List (Int × Int)
  points_in_segments : Int
  closed : Bool
  deriving DecidableEq, Repr

/-- Effective index of a Python sequence read access: a negative index counts
from the end; an index out of range after that adjustment is rejected. -/
def pyIdx (n : Nat) (i : Int) : Option (Fin n) :=
  let j := if i < 0 then i + n else i
  if h : 0 ≤ j ∧ j < n then some ⟨j.toNat, by omega⟩ else none

/-- Python `l[i]` (read). -/
def pyGet (l : List α) (i : Int) : Except Err α :=
  match pyIdx l.length i with
  | some j => .ok (l.get j)
  | none => .error .indexError

/-- Python `l[i] = x`. -/
def pySet (l : List α) (i : Int) (x : α) : Except Err (List α) :=
  match pyIdx l.length i with
  | some j => .ok (l.set j x)
  | none => .error .indexError

/-- Python `l.pop(i)`: returns the removed element and the remaining list. -/
def pyPop (l : List α) (i : Int) : Except Err (α × List α) :=
  match pyIdx l.length i with
  | some j => .ok (l.get j, l.eraseIdx j)
  | none => .error .indexError

/-- Python `l.insert(i, x)`: a negative index counts from the end, and the
result is clamped into `[0, len]`; `insert` never fails. -/
def pyInsert (l : List α) (i : Int) (x : α) : List α :=
  let j := if i < 0 then i + (l.length : Int) else i
  let k : Nat := if j ≤ 0 then 0 else min j.toNat l.length
  List.insertIdx k x l

def QUADRATIC_BEZIER_ORDER : Int := 2

def CUBIC_BEZIER_ORDER : Int := 3

/-- Source `Shape.close` (source): sets the `_closed` flag. -/
def Shape.close (s : Shape) : Shape := { s with closed := true }

/-- Source `Shape.setOpen` (source): clears the `_closed` flag. -/
def Shape.setOpen (s : Shape) : Shape := { s with closed := false }

/-- Source `Shape.isClosed` (source). -/
def Shape.isClosed (s : Shape) : Bool := s.closed

/-- Source `Shape.addSegment` (source lines 87-94): records `(seg_begin, seg_len)`
and updates `points_in_segments` (reset to `seg_len` on the very first
segment, `+ (seg_len - 1)` afterwards). -/
def Shape.addSegment (s : Shape) (seg_begin seg_len : Int) : Shape :=
  if s.segments.length = 0 then
    { s with points_in_segments := seg_len,
             segments := s.segments ++ [(seg_begin, seg_len)] }
  else
    { s with points_in_segments := s.points_in_segments + (seg_len - 1),
             segments := s.segments ++ [(seg_begin, seg_len)] }

/-- Source `Shape.insertPoint` (source lines 148-149): plain `list.insert`. -/
def Shape.insertPoint (s : Shape) (i : Int) (point : PyVal) : Shape :=
  { s with points := pyInsert s.points i point }

/-- Source `Shape.removePoint` (source lines 151-152): `list.pop(i)`, value
discarded. -/
def Shape.removePoint (s : Shape) (i : Int) : Except Err Shape :=
  (pyPop s.points i).map fun r => { s with points := r.2 }

/-- Source `Shape.popPoint` (source lines 143-146): pops the last point if any,
returning `none` on an empty store. -/
def Shape.popPoint (s : Shape) : Option PyVal × Shape :=
  match s.points.getLast? with
  | some p => (some p, { s with points := s.points.dropLast })
  | none => (none, s)

/-- Source `Shape.moveVertexBy` (source lines 331-332):
`self.points[i] = self.points[i] + offset`. Adding an offset to the junk
value `intZero` is a Python `TypeError`. -/
def Shape.moveVertexBy (s : Shape) (i : Int) (offset : Point) : Except Err Shape :=
  match pyGet s.points i with
  | .error e => .error e
  | .ok (.pt x y) =>
    (pySet s.points i (.pt (x + offset.1) (y + offset.2))).map
      fun l => { s with points := l }
  | .ok .intZero => .error .typeError

/-- Source `Shape.canAddPoint` (source lines 140-141). -/
def Shape.canAddPoint (s : Shape) : Bool :=
  s.shape_type = ShapeType.polygon ∨ s.shape_type = ShapeType.linestrip

/-- Source `Shape.createSegment` (source lines 99-110).  Reads `self.points[-1]`
(an index error on an empty list); if the incoming point equals the last
point, records a segment of size `2 + degree_increment` starting at
`len(points) - size`; otherwise inserts `new_p` at `max(len(points) - 1, 1)`,
records a segment of size `3 + degree_increment` starting at
`(new length) - size`, and appends the incoming point.  Note that nothing
checks whether `new_p` was actually supplied: the Python default `0` is
inserted into the point list like any other value. -/
def Shape.createSegment (s : Shape) (point : PyVal) (degree_increment : Int)
    (new_p : PyVal) : Except Err Shape :=
  match s.points.getLast? with
  | none => .error .indexError
  | some last =>
    if point = last then
      let size := QUADRATIC_BEZIER_ORDER + degree_increment
      let seg_begin := (s.points.length : Int) - size
      .ok (s.addSegment seg_begin size)
    else
      let size := CUBIC_BEZIER_ORDER + degree_increment
      let s1 := s.insertPoint (max ((s.points.length : Int) - 1) 1) new_p
      let seg_begin := (s1.points.length : Int) - size
      let s2 := { s1 with points := s1.points ++ [point] }
      .ok (s2.addSegment seg_begin size)

/-- Source `Shape.addPoint` (source lines 112-138).  The release path for curve
shapes reads `self.points[-1]` before anything else; the
`except NoPointError` handler in the source is dead code (`NoPointError`
is never raised anywhere), so `createSegment` failures other than index
errors cannot occur and no failure is converted into the intended
"missing control point" assertion. -/
def Shape.addPoint (s : Shape) (point : PyVal) (is_release : Bool)
    (new_p : PyVal) : Except Err Shape :=
  if is_release = true ∧ s.shape_type = ShapeType.curve then
    match s.points.getLast? with
    | none => .error .indexError
    | some last =>
      if point = last ∧ s.points.length = 1 then
        .ok { s with points_in_segments := s.points_in_segments + 1 }
      else if s.segments.length = 0 ∧ s.points.length = 1 then
        .ok { s with points := s.points ++ [point],
                     points_in_segments := s.points_in_segments + 1 }
      else
        let degree_increment :=
          max ((s.points.length : Int) - s.points_in_segments - 1) 0
        match s.createSegment point degree_increment new_p with
        | .error e => .error e
        | .ok s1 =>
          match s1.points.head? with
          | none => .error .indexError
          | some first =>
            if point = first then
              .ok { s1 with points := s1.points.dropLast, closed := true }
            else
              .ok s1
  else
    match s.points.head? with
    | some first =>
      if point = first then
        let degree_increment :=
          max ((s.points.length : Int) - s.points_in_segments) 0
        if s.shape_type = ShapeType.curve ∧ degree_increment = 1 then
          let size := QUADRATIC_BEZIER_ORDER + degree_increment
          let seg_begin := (s.points.length : Int) - size + 1
          .ok ((s.addSegment seg_begin size).close)
        else
          .ok s.close
      else
        .ok { s with points := s.points ++ [point] }
    | none => .ok { s with points := s.points ++ [point] }

/-- The scan loop of `Shape.nearestVertex` (source lines 274-282).  The state
is the running pair `(min_distance, min_i)`, starting at `(inf, None)`;
a point is taken when its distance is `≤ epsilon` and strictly below the
running minimum.  The distance function `d p`, standing for
`labelme.utils.distance(p - point)`, lives in `labelme.utils` (outside this
file's source) and is therefore kept abstract. -/
def nvLoop (d : PyVal → ℚ) (eps : ℚ) :
    List PyVal → Nat → WithTop ℚ → Option Nat → Option Nat
  | [], _, _, min_i => min_i
  | p :: rest, i, min_distance, min_i =>
    if d p ≤ eps ∧ ((d p : ℚ) : WithTop ℚ) < min_distance then
      nvLoop d eps rest (i + 1) ((d p : ℚ) : WithTop ℚ) (some i)
    else
      nvLoop d eps rest (i + 1) min_distance min_i

/-- Source `Shape.nearestVertex` (source lines 274-282). -/
def Shape.nearestVertex (s : Shape) (d : PyVal → ℚ) (eps : ℚ) : Option Nat :=
  nvLoop d eps s.points 0 ⊤ none

/-- Source `Shape.nearestEdge` (source lines 284-293): for each `i` in
`range(len(points))` the edge is `[points[i - 1], points[i]]` (Python's
`-1` wraps to the last element); the loop keeps the strictly smaller
qualifying distance.  `d2 a b` stands for
`labelme.utils.distancetoline(point, [a, b])`, which lives in
`labelme.utils` (outside this file's source) and is kept abstract. -/
def Shape.nearestEdge (s : Shape) (d2 : PyVal → PyVal → ℚ) (eps : ℚ) :
    Option Nat :=
  ((List.range s.points.length).foldl
    (fun acc (i : Nat) =>
      match pyGet s.points ((i : Int) - 1), pyGet s.points (i : Int) with
      | .ok a, .ok b =>
        let dist := d2 a b
        if dist ≤ eps ∧ ((dist : ℚ) : WithTop ℚ) < acc.1 then
          (((dist : ℚ) : WithTop ℚ), some i)
        else acc
      | _, _ => acc)
    ((⊤ : WithTop ℚ), (none : Option Nat))).2

/-- A `QRectF`: origin plus (possibly negative) width and height. -/
structure Rect where
  x : ℚ
  y : ℚ
  w : ℚ
  h : ℚ
  deriving DecidableEq, Repr

/-- Source `Shape.getRectFromLine` (source lines 160-163):
`QRectF(x1, y1, x2 - x1, y2 - y1)` — no normalization of negative
extents is performed here. -/
def Shape.getRectFromLine (pt1 pt2 : PyVal) : Except Err Rect :=
  match pt1.asPoint with
  | .error e => .error e
  | .ok a =>
    match pt2.asPoint with
    | .error e => .error e
    | .ok b => .ok ⟨a.1, a.2, b.1 - a.1, b.2 - a.2⟩

/-- An abstract drawing operation of a `QPainterPath`. -/
inductive PathOp where
  | addRect (r : Rect)
  | addCircleRect (c : Point) (r2 : ℚ)
  | moveTo (p : Point)
  | lineTo (p : Point)
  | quadTo (c e : Point)
  | cubicTo (c1 c2 e : Point)
  deriving DecidableEq, Repr

/-- Source `Shape.getCircleRectFromLine` (source lines 298-306) computes
`d = sqrt(rx^2 + ry^2)` and returns `QRectF(cx - d, cy - d, 2d, 2d)`.
Because `d` is irrational in general, the embedding keeps the defining
data — the centre and the squared radius `r2 = rx^2 + ry^2` — which
carries the same information. -/
def Shape.getCircleRectFromLine (line : List PyVal) : Except Err (Point × ℚ) :=
  match line with
  | [c, p] => do
    let cq ← c.asPoint
    let pq ← p.asPoint
    .ok (cq, (cq.1 - pq.1) ^ 2 + (cq.2 - pq.2) ^ 2)
  | _ => .error .indexError

/-- Source `Shape.makePath` (source lines 308-323).  `rectangle` and `circle`
shapes emit a single rect/ellipse when exactly two points are present and
an empty path otherwise; every other shape type (including `curve`) starts
at `points[0]` — an index error on an empty list — and emits a plain
`lineTo` polyline through the remaining points.  The recorded curve
segments are not consulted. -/
def Shape.makePath (s : Shape) : Except Err (List PathOp) :=
  match s.shape_type with
  | ShapeType.rectangle =>
    match s.points with
    | [p1, p2] => (Shape.getRectFromLine p1 p2).map fun r => [PathOp.addRect r]
    | _ => .ok []
  | ShapeType.circle =>
    match s.points with
    | [c, p] =>
      (Shape.getCircleRectFromLine [c, p]).map
        fun cr => [PathOp.addCircleRect cr.1 cr.2]
    | _ => .ok []
  | _ =>
    match s.points with
    | [] => .error .indexError
    | p0 :: rest =>
      match p0.asPoint with
      | .error e => .error e
      | .ok q0 =>
        match rest.mapM PyVal.asPoint with
        | .error e => .error e
        | .ok qs => .ok (PathOp.moveTo q0 :: qs.map PathOp.lineTo)

/-- Modelled from the spec: the even-odd fill rule of
`QPainterPath.contains` (Qt, external to this repository) is embedded as
crossing-parity of a rightward horizontal ray.  `edgeCross q a b` holds when
that ray from `q` crosses the closed edge from `a` to `b`. -/
def edgeCross (q a b : Point) : Bool :=
  (decide (a.2 > q.2) != decide (b.2 > q.2)) &&
  decide (q.1 < a.1 + (q.2 - a.2) * (b.1 - a.1) / (b.2 - a.2))

/-- Number of ray crossings of the implicitly-closed polygon `poly`: the
edges are the consecutive pairs of vertices plus the closing edge back to
the first vertex. -/
def polyCrossings (q : Point) (poly : List Point) : Nat :=
  match poly with
  | [] => 0
  | v :: vs =>
    (((v :: vs).zip (vs ++ [v])).filter fun e => edgeCross q e.1 e.2).length

/-- The corner polygon of a `QRectF` as traversed by
`QPainterPath.addRect`, in the stored (possibly non-normalized) order. -/
def rectPoly (r : Rect) : List Point :=
  [(r.x, r.y), (r.x + r.w, r.y), (r.x + r.w, r.y + r.h), (r.x, r.y + r.h)]

/-- Decomposition of an op list into the implicitly-closed subpath polygons
used by the even-odd fill test; `cur` accumulates the current subpath in
reverse.  Quadratic and cubic curve ops contribute their control polygon
(Qt would flatten the curve; no claim below evaluates containment of a
curved path). -/
def opsPolysAux : List PathOp → List Point → List (List Point)
  | [], cur => [cur.reverse]
  | PathOp.moveTo p :: rest, cur => cur.reverse :: opsPolysAux rest [p]
  | PathOp.lineTo p :: rest, cur => opsPolysAux rest (p :: cur)
  | PathOp.quadTo c e :: rest, cur => opsPolysAux rest (e :: c :: cur)
  | PathOp.cubicTo c1 c2 e :: rest, cur => opsPolysAux rest (e :: c2 :: c1 :: cur)
  | PathOp.addRect r :: rest, cur => rectPoly r :: opsPolysAux rest cur
  | PathOp.addCircleRect _ _ :: rest, cur => opsPolysAux rest cur

/-- Parity contribution of the ellipse subpaths: the inscribed circle of
centre `c` and squared radius `r2` contains `q` iff the squared distance is
below `r2`. -/
def circleHits (q : Point) (ops : List PathOp) : Nat :=
  (ops.filter fun o =>
    match o with
    | PathOp.addCircleRect c r2 =>
      decide ((q.1 - c.1) ^ 2 + (q.2 - c.2) ^ 2 < r2)
    | _ => false).length

/-- Modelled from the spec: even-odd containment of a point in the path,
as `QPainterPath.contains` computes it for the op lists produced here. -/
def pathContains (ops : List PathOp) (q : Point) : Bool :=
  Nat.bodd ((((opsPolysAux ops []).map (polyCrossings q)).sum) + circleHits q ops)

/-- Source `Shape.containsPoint` (source lines 295-296):
`self.makePath().contains(point)`. -/
def Shape.containsPoint (s : Shape) (q : Point) : Except Err Bool :=
  s.makePath.map fun ops => pathContains ops q

/-- The defining points of a drawing op, for the bounding-box fold.  The
extent of an ellipse op needs the irrational radius and is approximated by
its centre; no claim below depends on bounding-box coordinates. -/
def opPoints : PathOp → List Point
  | PathOp.moveTo p => [p]
  | PathOp.lineTo p => [p]
  | PathOp.quadTo c e => [c, e]
  | PathOp.cubicTo c1 c2 e => [c1, c2, e]
  | PathOp.addRect r => rectPoly r
  | PathOp.addCircleRect c _ => [c]

/-- Modelled from the spec: `QPainterPath.boundingRect` — the min/max box
of the path's defining points, `none` standing for the null `QRectF` of an
empty path. -/
def opsBound (ops : List PathOp) : Option Rect :=
  match (ops.map opPoints).flatten with
  | [] => none
  | p :: ps =>
    let xs := ps.map Prod.fst
    let ys := ps.map Prod.snd
    let mnx := xs.foldl min p.1
    let mxx := xs.foldl max p.1
    let mny := ys.foldl min p.2
    let mxy := ys.foldl max p.2
    some ⟨mnx, mny, mxx - mnx, mxy - mny⟩

/-- Source `Shape.boundingRect` (source lines 325-326):
`self.makePath().boundingRect()`. -/
def Shape.boundingRect (s : Shape) : Except Err (Option Rect) :=
  s.makePath.map opsBound

/-- Following the spec's words (section 4.4 and claim C6): the area path a
curve shape is claimed to be queried against — `MoveTo(points[0])`, then
for each recorded segment `(begin, length)` a `MoveTo(points[begin])`
followed by `CubicTo`/`QuadTo`/`LineTo` according to `length` = 4/3/2,
substituting `points[0]` for the quadratic end point when `begin + length`
exceeds the point count.  This definition exists to be compared against
`Shape.makePath`, which is what `containsPoint`/`boundingRect` actually
use. -/
def segOpsSpec (pts : List PyVal) (q0 : Point) (seg : Int × Int) :
    Except Err (List PathOp) := do
  let pb ← pyGet pts seg.1 >>= PyVal.asPoint
  if seg.2 = 4 then do
    let c1 ← pyGet pts (seg.1 + 1) >>= PyVal.asPoint
    let c2 ← pyGet pts (seg.1 + 2) >>= PyVal.asPoint
    let e ← pyGet pts (seg.1 + 3) >>= PyVal.asPoint
    .ok [PathOp.moveTo pb, PathOp.cubicTo c1 c2 e]
  else if seg.2 = 3 then do
    let c ← pyGet pts (seg.1 + 1) >>= PyVal.asPoint
    if (pts.length : Int) ≥ seg.1 + seg.2 then do
      let e ← pyGet pts (seg.1 + 2) >>= PyVal.asPoint
      .ok [PathOp.moveTo pb, PathOp.quadTo c e]
    else
      .ok [PathOp.moveTo pb, PathOp.quadTo c q0]
  else do
    let e ← pyGet pts (seg.1 + 1) >>= PyVal.asPoint
    .ok [PathOp.moveTo pb, PathOp.lineTo e]

/-- Following the spec's words (claim C6): the segment-based curve area
path, assembled from `segOpsSpec` for every recorded segment. -/
def curveAreaPathSpec (s : Shape) : Except Err (List PathOp) :=
  match s.points with
  | [] => .error .indexError
  | p0 :: _ => do
    let q0 ← p0.asPoint
    let segOps ← s.segments.mapM (segOpsSpec s.points q0)
    .ok (PathOp.moveTo q0 :: segOps.flatten)

/-- Repeated `Shape.addSegment`: records each `(seg_begin, seg_len)` pair of
`l` in order. -/
def addSegments (s : Shape) (l : List (Int × Int)) : Shape :=
  l.foldl (fun t sg => t.addSegment sg.1 sg.2) s

/-- A `Shape` as a Python object: the `points` and `segments` attributes are
references (cell indices) into a heap of list objects.  This refined view
exists only to express aliasing, which value-level state passing cannot. -/
structure ShapeRef where
  shape_type : ShapeType
  ptsRef : Nat
  segsRef : Nat
  points_in_segments : Int
  closed : Bool
  deriving DecidableEq, Repr

/-- The heap of list objects backing `ShapeRef` values: cell `i` of each
arena is one Python list object. -/
structure Heap where
  ptsCells : List (List PyVal)
  segCells : List (List (Int × Int))
  deriving DecidableEq, Repr

/-- Source `Shape.copy` (source lines 341-342) is `copy.deepcopy(self)`.
`copy.deepcopy` is Python standard-library code, outside this repository;
it is modelled by its documented semantics: every reachable container is
recreated in freshly allocated cells holding copies of the contents, so the
copy shares no cell with the original. -/
def Heap.copyShape (h : Heap) (s : ShapeRef) : Heap × ShapeRef :=
  (⟨h.ptsCells ++ [h.ptsCells.getD s.ptsRef []],
    h.segCells ++ [h.segCells.getD s.segsRef []]⟩,
   { s with ptsRef := h.ptsCells.length, segsRef := h.segCells.length })

/-- An in-place mutation of the point list object in cell `r` — the heap
effect of operations such as `points.append`, `points.insert`,
`points.pop`. -/
def Heap.mutatePoints (h : Heap) (r : Nat) (f : List PyVal → List PyVal) : Heap :=
  { h with ptsCells := h.ptsCells.set r (f (h.ptsCells.getD r [])) }

/-- An in-place mutation of the segment list object in cell `r` — the heap
effect of `segments.append` or `addPointToSegment`. -/
def Heap.mutateSegments (h : Heap) (r : Nat)
    (f : List (Int × Int) → List (Int × Int)) : Heap :=
  { h with segCells := h.segCells.set r (f (h.segCells.getD r [])) }

/-! Helper lemmas about the Python sequence-index embedding. -/

theorem pyIdx_eq_none_iff (n : Nat) (i : Int) :
    pyIdx n i = none ↔ ¬(-(n : Int) ≤ i ∧ i < (n : Int)) := by
  unfold pyIdx
  by_cases hi : i < 0 <;> simp only [hi, if_true, if_false, reduceIte] <;>
    split <;> simp_all <;> omega

theorem pyIdx_some_bounds {n : Nat} {i : Int} {j : Fin n}
    (h : pyIdx n i = some j) : -(n : Int) ≤ i ∧ i < (n : Int) := by
  by_contra hb
  rw [(pyIdx_eq_none_iff n i).mpr hb] at h
  exact Option.noConfusion h

theorem pyInsert_length (l : List α) (i : Int) (x : α) :
    (pyInsert l i x).length = l.length + 1 := by
  have hk : (if (if i < 0 then i + (l.length : Int) else i) ≤ 0 then 0
      else min (if i < 0 then i + (l.length : Int) else i).toNat l.length) ≤
        l.length := by
    split <;> split <;> omega
  simpa only [pyInsert] using List.length_insertIdx _ l hk

/-! Theorems for the claims. -/

/-- C10: a release-event `addPoint` on a curve shape with an empty point
list reads `self.points[-1]` unguarded, so it fails with an index error:
the release protocol has the unstated precondition that at least one point
already exists. -/
theorem c10_addPoint_empty_release (s : Shape) (point new_p : PyVal)
    (h1 : s.shape_type = ShapeType.curve) (h2 : s.points = []) :
    s.addPoint point true new_p = .error .indexError := by
  simp [Shape.addPoint, h1, h2]

/-- C10 witness: the empty curve shape at a concrete point. -/
theorem c10_addPoint_empty_release_witness :
    (⟨ShapeType.curve, [], [], 0, false⟩ : Shape).shape_type = ShapeType.curve ∧
    (⟨ShapeType.curve, [], [], 0, false⟩ : Shape).points = [] ∧
    (⟨ShapeType.curve, [], [], 0, false⟩ : Shape).addPoint (.pt 1 1) true .intZero
      = .error .indexError :=
  ⟨rfl, rfl, c10_addPoint_empty_release _ _ _ rfl rfl⟩

/-- C1: at the failing input — a curve shape holding the two committed
points `(0,0)`, `(1,0)` receiving the release point `(2,0)` with `new_p`
left at its Python default `0` — `addPoint` does not fail at all: it
silently inserts the integer default into the point list at index 1 and
records the segment `(0, 3)` over `[(0,0), 0, (1,0)]`.  The
`NoPointError`/`assert` machinery of the source is dead code (nothing ever
raises `NoPointError`), so the "missing control point" failure demanded by
the spec cannot occur and the store is silently corrupted. -/
theorem c1_missing_anchor_silently_inserted :
    Shape.addPoint ⟨ShapeType.curve, [.pt 0 0, .pt 1 0], [], 2, false⟩
        (.pt 2 0) true .intZero
      = .ok ⟨ShapeType.curve, [.pt 0 0, .intZero, .pt 1 0, .pt 2 0],
             [(0, 3)], 3, false⟩ := by
  decide

/-- C2 counterexample: with stored points `[(0,0), (1,0)]`
(`points_in_segments = 2`, so `degreeIncrement = 0`), incoming point
`(2,0)` and supplied anchor `(9,9)`, `createSegment` records the segment
`(begin = 0, size = 3)`, whose final point (index `begin + size - 1 = 2`)
is the old last point `(1,0)` — not the incoming point, which is appended
one position past the segment, at index 3. -/
theorem c2_counterexample :
    Shape.createSegment ⟨ShapeType.curve, [.pt 0 0, .pt 1 0], [], 2, false⟩
        (.pt 2 0) 0 (.pt 9 9)
      = .ok ⟨ShapeType.curve, [.pt 0 0, .pt 9 9, .pt 1 0, .pt 2 0],
             [(0, 3)], 3, false⟩ ∧
    pyGet [PyVal.pt 0 0, .pt 9 9, .pt 1 0, .pt 2 0] (0 + 3 - 1)
      = .ok (.pt 1 0) ∧
    PyVal.pt 1 0 ≠ PyVal.pt 2 0 := by
  decide

/-- C2 (amended): on a non-empty store, if the incoming point equals the
last stored point, `createSegment` records a segment of size
`2 + degreeIncrement` beginning at `N - size` with the point list
untouched; otherwise it inserts the anchor at `max(N - 1, 1)`, records a
segment of size `3 + degreeIncrement` beginning at `(N + 1) - size`, and
appends the incoming point at the end of the point list — at index
`begin + size`, one position past the segment's final point. -/
theorem c2_createSegment_spec (s : Shape) (point new_p : PyVal) (di : Int)
    (last : PyVal) (hlast : s.points.getLast? = some last) :
    (point = last →
      s.createSegment point di new_p
        = .ok (s.addSegment ((s.points.length : Int) - (2 + di)) (2 + di))) ∧
    (point ≠ last →
      s.createSegment point di new_p
        = .ok ((Shape.mk s.shape_type
              (pyInsert s.points (max ((s.points.length : Int) - 1) 1) new_p
                ++ [point])
              s.segments s.points_in_segments s.closed).addSegment
            (((s.points.length : Int) + 1) - (3 + di)) (3 + di)) ∧
      (pyInsert s.points (max ((s.points.length : Int) - 1) 1) new_p
          ++ [point]).length = s.points.length + 2 ∧
      (((s.points.length : Int) + 1) - (3 + di)) + (3 + di)
        = (s.points.length : Int) + 1) := by
  constructor
  · intro hp
    unfold Shape.createSegment
    rw [hlast]
    dsimp only
    rw [if_pos hp]
    rfl
  · intro hp
    refine ⟨?_, by simp [pyInsert_length], by omega⟩
    unfold Shape.createSegment
    rw [hlast]
    dsimp only
    rw [if_neg hp]
    simp only [Shape.insertPoint]
    rw [pyInsert_length]
    push_cast
    rfl

/-- C2 witness: the amended characterization applied at the counterexample
input. -/
theorem c2_createSegment_spec_witness :
    PyVal.pt 2 0 ≠ PyVal.pt 1 0 ∧
    Shape.createSegment ⟨ShapeType.curve, [.pt 0 0, .pt 1 0], [], 2, false⟩
        (.pt 2 0) 0 (.pt 9 9)
      = .ok ((Shape.mk ShapeType.curve
            (pyInsert [PyVal.pt 0 0, .pt 1 0] (max ((2 : Int) - 1) 1) (.pt 9 9)
              ++ [.pt 2 0])
            [] 2 false).addSegment (((2 : Int) + 1) - (3 + 0)) (3 + 0)) := by
  have h := (c2_createSegment_spec
    ⟨ShapeType.curve, [.pt 0 0, .pt 1 0], [], 2, false⟩
    (.pt 2 0) (.pt 9 9) 0 (.pt 1 0) rfl).2 (by decide)
  exact ⟨by decide, h.1⟩

/-- C3: `points_in_segments` equals the first recorded segment's size and
grows by `size - 1` for each later segment, so after recording sizes
`s1..sk` from an empty segment list it equals `s1 + Σ (si - 1)`. -/
theorem c3_pointsInSegments_sum :
    (∀ (s : Shape) (b ln : Int), s.segments = [] →
      (s.addSegment b ln).points_in_segments = ln) ∧
    (∀ (t : Shape) (b ln : Int), t.segments ≠ [] →
      (t.addSegment b ln).points_in_segments
        = t.points_in_segments + (ln - 1)) ∧
    (∀ (s : Shape) (sg0 : Int × Int) (rest : List (Int × Int)),
      s.segments = [] →
      (addSegments s (sg0 :: rest)).points_in_segments
        = sg0.2 + (rest.map (fun sg => sg.2 - 1)).sum) := by
  have hfirst : ∀ (s : Shape) (b ln : Int), s.segments = [] →
      (s.addSegment b ln).points_in_segments = ln := by
    intro s b ln h
    simp [Shape.addSegment, h]
  have hstep : ∀ (t : Shape) (b ln : Int), t.segments ≠ [] →
      (t.addSegment b ln).points_in_segments
        = t.points_in_segments + (ln - 1) := by
    intro t b ln h
    rw [Shape.addSegment, if_neg (by simpa using h)]
  have hne : ∀ (t : Shape) (b ln : Int), (t.addSegment b ln).segments ≠ [] := by
    intro t b ln
    unfold Shape.addSegment
    split <;> simp
  have hfold : ∀ (rest : List (Int × Int)) (t : Shape), t.segments ≠ [] →
      (addSegments t rest).points_in_segments
        = t.points_in_segments + (rest.map (fun sg => sg.2 - 1)).sum ∧
      (addSegments t rest).segments ≠ [] := by
    intro rest
    induction rest with
    | nil => intro t ht; simpa [addSegments] using ht
    | cons sg rest ih =>
      intro t ht
      have hrec := ih (t.addSegment sg.1 sg.2) (hne t sg.1 sg.2)
      have hEq : addSegments t (sg :: rest)
          = addSegments (t.addSegment sg.1 sg.2) rest := rfl
      refine ⟨?_, hEq ▸ hrec.2⟩
      rw [hEq, hrec.1, hstep t sg.1 sg.2 ht]
      simp only [List.map_cons, List.sum_cons]
      ring
  refine ⟨hfirst, hstep, ?_⟩
  intro s sg0 rest h
  have hEq : addSegments s (sg0 :: rest)
      = addSegments (s.addSegment sg0.1 sg0.2) rest := rfl
  rw [hEq, (hfold rest (s.addSegment sg0.1 sg0.2) (hne s sg0.1 sg0.2)).1,
     hfirst s sg0.1 sg0.2 h]

/-- C3 witness: recording sizes 3, 4, 2 from an empty segment list gives
`points_in_segments = 3 + (4 - 1) + (2 - 1) = 7`. -/
theorem c3_pointsInSegments_sum_witness :
    (⟨ShapeType.curve, [], [], 0, false⟩ : Shape).segments = [] ∧
    (addSegments ⟨ShapeType.curve, [], [], 0, false⟩
      [((0 : Int), (3 : Int)), (2, 4), (5, 2)]).points_in_segments = 7 := by
  have h := c3_pointsInSegments_sum.2.2 ⟨ShapeType.curve, [], [], 0, false⟩
    (0, 3) [(2, 4), (5, 2)] rfl
  exact ⟨rfl, by rw [h]; decide⟩

/-- C5 counterexample: on a one-point shape, index `-1` is outside
`[0, len)` yet `removePoint(-1)` succeeds (Python negative indexing), and
index `100` is outside `[0, len]` yet `insertPoint(100, p)` succeeds by
clamping (Python `list.insert` never raises). -/
theorem c5_counterexample :
    Shape.removePoint ⟨ShapeType.polygon, [.pt 0 0], [], 0, false⟩ (-1)
      = .ok ⟨ShapeType.polygon, [], [], 0, false⟩ ∧
    (Shape.insertPoint ⟨ShapeType.polygon, [.pt 0 0], [], 0, false⟩ 100
        (.pt 5 5)).points
      = [.pt 0 0, .pt 5 5] := by
  decide

/-- C5 (amended): `removePoint` and `moveVertexBy` fail with an index error
exactly when the index is outside `[-len, len)` — Python negative indices
within range are accepted, counting from the end — while `insertPoint`
never fails: its index is clamped and the point list always grows by one.
`moveVertexBy` succeeds exactly when the read itself succeeds and yields a
genuine point. -/
theorem c5_index_bounds (s : Shape) (i : Int) (p : PyVal) (off : Point) :
    ((∃ t, s.removePoint i = .ok t) ↔
      (-(s.points.length : Int) ≤ i ∧ i < (s.points.length : Int))) ∧
    ((∃ v, pyGet s.points i = .ok v) ↔
      (-(s.points.length : Int) ≤ i ∧ i < (s.points.length : Int))) ∧
    ((∃ t, s.moveVertexBy i off = .ok t) ↔
      (∃ x y, pyGet s.points i = .ok (PyVal.pt x y))) ∧
    (s.insertPoint i p).points.length = s.points.length + 1 := by
  refine ⟨?_, ?_, ?_, by simp [Shape.insertPoint, pyInsert_length]⟩
  · unfold Shape.removePoint pyPop
    cases h : pyIdx s.points.length i with
    | none =>
      simp only [h, Except.map]
      exact iff_of_false (by simp) ((pyIdx_eq_none_iff _ _).mp h)
    | some j =>
      simp only [h, Except.map]
      exact iff_of_true ⟨_, rfl⟩ (pyIdx_some_bounds h)
  · unfold pyGet
    cases h : pyIdx s.points.length i with
    | none =>
      simp only [h]
      exact iff_of_false (by simp) ((pyIdx_eq_none_iff _ _).mp h)
    | some j =>
      simp only [h]
      exact iff_of_true ⟨_, rfl⟩ (pyIdx_some_bounds h)
  · unfold Shape.moveVertexBy
    cases hg : pyGet s.points i with
    | error e => simp [hg]
    | ok v =>
      cases v with
      | intZero => simp
      | pt x y =>
        have hj : pyIdx s.points.length i ≠ none := by
          intro hn
          rw [pyGet, hn] at hg
          exact Except.noConfusion hg
        cases h : pyIdx s.points.length i with
        | none => exact absurd h hj
        | some j =>
          unfold pySet
          rw [h]
          exact iff_of_true ⟨_, rfl⟩ ⟨x, y, rfl⟩

/-- C5 witness: on a one-point shape, index `-1` is in `[-1, 1)` so
`removePoint` succeeds. -/
theorem c5_index_bounds_witness :
    (-(1 : Int) ≤ -1 ∧ (-1 : Int) < 1) ∧
    (∃ t, Shape.removePoint ⟨ShapeType.polygon, [.pt 0 0], [], 0, false⟩ (-1)
      = .ok t) := by
  refine ⟨by decide, ?_⟩
  exact (c5_index_bounds ⟨ShapeType.polygon, [.pt 0 0], [], 0, false⟩ (-1)
    (.pt 0 0) (0, 0)).1.mpr (by decide)

/-- C4 counterexample: on a polygon shape (the default shape type) with an
empty point list, `containsPoint` is not a "no result" sentinel — it
propagates the index error of `makePath`, which reads `points[0]`
unguarded. -/
theorem c4_counterexample :
    Shape.containsPoint ⟨ShapeType.polygon, [], [], 0, false⟩ (0, 0)
      = .error .indexError := by
  decide

/-- C4 (amended): on an empty point list, `nearestVertex` and `nearestEdge`
return `none` for every shape type, and `makePath`-based queries
(`containsPoint`, `boundingRect`) return empty-path results without error
for `rectangle` and `circle` shapes only; for every other shape type they
fail with an index error because `makePath` reads `points[0]`. -/
theorem c4_empty_queries (s : Shape) (d : PyVal → ℚ) (d2 : PyVal → PyVal → ℚ)
    (eps : ℚ) (q : Point) (h : s.points = []) :
    s.nearestVertex d eps = none ∧
    s.nearestEdge d2 eps = none ∧
    ((s.shape_type = ShapeType.rectangle ∨ s.shape_type = ShapeType.circle) →
      s.makePath = .ok [] ∧ s.containsPoint q = .ok false ∧
      s.boundingRect = .ok none) ∧
    ((s.shape_type ≠ ShapeType.rectangle ∧ s.shape_type ≠ ShapeType.circle) →
      s.makePath = .error .indexError ∧
      s.containsPoint q = .error .indexError ∧
      s.boundingRect = .error .indexError) := by
  refine ⟨by simp [Shape.nearestVertex, h, nvLoop],
          by simp [Shape.nearestEdge, h], ?_, ?_⟩
  · intro hrc
    have hmp : s.makePath = .ok [] := by
      unfold Shape.makePath
      rcases hrc with h1 | h1 <;> rw [h1, h]
    refine ⟨hmp, ?_, ?_⟩
    · simp [Shape.containsPoint, hmp, Except.map, pathContains, opsPolysAux,
        polyCrossings, circleHits]
    · simp [Shape.boundingRect, hmp, Except.map, opsBound]
  · intro hpc
    have hmp : s.makePath = .error .indexError := by
      unfold Shape.makePath
      cases hst : s.shape_type <;> simp_all [h]
    refine ⟨hmp, ?_, ?_⟩
    · simp [Shape.containsPoint, hmp, Except.map]
    · simp [Shape.boundingRect, hmp, Except.map]

/-- C4 witness: the amended claim applied to an empty rectangle shape
(empty path, no error) and an empty polygon shape (index error). -/
theorem c4_empty_queries_witness :
    (⟨ShapeType.rectangle, [], [], 0, false⟩ : Shape).points = [] ∧
    Shape.nearestVertex ⟨ShapeType.rectangle, [], [], 0, false⟩
      (fun _ => 1) 0 = none ∧
    Shape.makePath ⟨ShapeType.rectangle, [], [], 0, false⟩ = .ok [] ∧
    Shape.containsPoint ⟨ShapeType.rectangle, [], [], 0, false⟩ (0, 0)
      = .ok false ∧
    Shape.makePath ⟨ShapeType.polygon, [], [], 0, false⟩
      = .error .indexError := by
  have hr := c4_empty_queries ⟨ShapeType.rectangle, [], [], 0, false⟩
    (fun _ => 1) (fun _ _ => 1) 0 (0, 0) rfl
  have hp := c4_empty_queries ⟨ShapeType.polygon, [], [], 0, false⟩
    (fun _ => 1) (fun _ _ => 1) 0 (0, 0) rfl
  exact ⟨rfl, hr.1, (hr.2.2.1 (Or.inl rfl)).1, (hr.2.2.1 (Or.inl rfl)).2.1,
    (hp.2.2.2 ⟨by decide, by decide⟩).1⟩

/-- C6 counterexample: for the curve shape with points
`[(0,0), (5,9), (10,0)]` and the single recorded segment `(0, 3)`, the path
that `containsPoint`/`boundingRect` actually query (`makePath`) is the raw
polyline `MoveTo (0,0); LineTo (5,9); LineTo (10,0)`, not the
segment-based area path `MoveTo (0,0); MoveTo (0,0); QuadTo (5,9) (10,0)`
described by the claim. -/
theorem c6_counterexample :
    Shape.makePath
        ⟨ShapeType.curve, [.pt 0 0, .pt 5 9, .pt 10 0], [(0, 3)], 3, false⟩
      ≠ curveAreaPathSpec
        ⟨ShapeType.curve, [.pt 0 0, .pt 5 9, .pt 10 0], [(0, 3)], 3, false⟩ := by
  decide

/-- C6 (amended): for curve shapes, `containsPoint` and `boundingRect`
operate on `makePath`, which is the raw polyline `MoveTo points[0]` then
`LineTo` through every remaining stored point; it never consults the
recorded segments (the segment-based curve path exists only in `paint`). -/
theorem c6_makePath_polyline (s : Shape) (h1 : s.shape_type = ShapeType.curve)
    (p0 : PyVal) (rest : List PyVal) (h2 : s.points = p0 :: rest)
    (q0 : Point) (qs : List Point) (h3 : p0.asPoint = .ok q0)
    (h4 : rest.mapM PyVal.asPoint = .ok qs) :
    s.makePath = .ok (PathOp.moveTo q0 :: qs.map PathOp.lineTo) ∧
    (∀ segs : List (Int × Int),
      Shape.makePath ⟨s.shape_type, s.points, segs, s.points_in_segments,
        s.closed⟩ = s.makePath) ∧
    (∀ qq : Point, s.containsPoint qq
      = .ok (pathContains (PathOp.moveTo q0 :: qs.map PathOp.lineTo) qq)) ∧
    s.boundingRect = .ok (opsBound (PathOp.moveTo q0 :: qs.map PathOp.lineTo)) := by
  have hmp : s.makePath = .ok (PathOp.moveTo q0 :: qs.map PathOp.lineTo) := by
    unfold Shape.makePath
    rw [h1, h2]
    dsimp only
    rw [h3, h4]
  refine ⟨hmp, fun segs => rfl, ?_, ?_⟩
  · intro qq
    simp [Shape.containsPoint, hmp, Except.map]
  · simp [Shape.boundingRect, hmp, Except.map]

/-- C6 witness: the polyline characterization at the counterexample
shape. -/
theorem c6_makePath_polyline_witness :
    (⟨ShapeType.curve, [.pt 0 0, .pt 5 9, .pt 10 0], [(0, 3)], 3,
        false⟩ : Shape).shape_type = ShapeType.curve ∧
    Shape.makePath
        ⟨ShapeType.curve, [.pt 0 0, .pt 5 9, .pt 10 0], [(0, 3)], 3, false⟩
      = .ok [PathOp.moveTo (0, 0), PathOp.lineTo (5, 9),
             PathOp.lineTo (10, 0)] := by
  have h := c6_makePath_polyline
    ⟨ShapeType.curve, [.pt 0 0, .pt 5 9, .pt 10 0], [(0, 3)], 3, false⟩
    rfl (.pt 0 0) [.pt 5 9, .pt 10 0] rfl (0, 0) [(5, 9), (10, 0)] rfl rfl
  exact ⟨rfl, h.1⟩

/-! Helper lemmas for the even-odd rectangle containment computation. -/

theorem polyCrossings_quad (q A B C D : Point) :
    polyCrossings q [A, B, C, D]
      = ((if edgeCross q A B then 1 else 0)
          + ((if edgeCross q B C then 1 else 0)
            + ((if edgeCross q C D then 1 else 0)
              + (if edgeCross q D A then 1 else 0)))) := by
  cases h1 : edgeCross q A B <;> cases h2 : edgeCross q B C <;>
    cases h3 : edgeCross q C D <;> cases h4 : edgeCross q D A <;>
      simp [polyCrossings, List.filter, h1, h2, h3, h4]

theorem pathContains_single_rect_eq (r : Rect) (q : Point) :
    pathContains [PathOp.addRect r] q
      = Nat.bodd (polyCrossings q (rectPoly r)) := by
  have h0 : polyCrossings q [] = 0 := rfl
  simp [pathContains, opsPolysAux, circleHits, h0]

theorem bandIff (a b q : ℚ) :
    ((decide (q < a)) != decide (q < b)) = true ↔
      (min a b ≤ q ∧ q < max a b) := by
  by_cases h1 : q < a <;> by_cases h2 : q < b
  · rw [decide_eq_true h1, decide_eq_true h2]
    refine iff_of_false (by decide) ?_
    rintro ⟨hm, -⟩
    rcases min_le_iff.mp hm with h | h <;> linarith
  · rw [decide_eq_true h1, decide_eq_false h2]
    exact iff_of_true rfl
      ⟨min_le_iff.mpr (Or.inr (le_of_not_lt h2)), lt_max_iff.mpr (Or.inl h1)⟩
  · rw [decide_eq_false h1, decide_eq_true h2]
    exact iff_of_true rfl
      ⟨min_le_iff.mpr (Or.inl (le_of_not_lt h1)), lt_max_iff.mpr (Or.inr h2)⟩
  · rw [decide_eq_false h1, decide_eq_false h2]
    refine iff_of_false (by decide) ?_
    rintro ⟨-, hM⟩
    rcases lt_max_iff.mp hM with h | h <;> [exact h1 h; exact h2 h]

theorem bodd_two_ifs (a b : Bool) :
    Nat.bodd ((if a then 1 else 0) + (if b then 1 else 0)) = (a != b) := by
  cases a <;> cases b <;> rfl

theorem band_bne_band (c p q : Bool) : ((c && p) != (c && q)) = (c && (p != q)) := by
  cases c <;> cases p <;> cases q <;> rfl

theorem pathContains_single_rect (x1 y1 x2 y2 qx qy : ℚ) :
    pathContains [PathOp.addRect ⟨x1, y1, x2 - x1, y2 - y1⟩] (qx, qy) = true ↔
      (min x1 x2 ≤ qx ∧ qx < max x1 x2 ∧ min y1 y2 ≤ qy ∧ qy < max y1 y2) := by
  rw [pathContains_single_rect_eq]
  have hcorners : rectPoly ⟨x1, y1, x2 - x1, y2 - y1⟩
      = [(x1, y1), (x2, y1), (x2, y2), (x1, y2)] := by
    simp [rectPoly]
  rw [hcorners, polyCrossings_quad]
  have hAB : edgeCross (qx, qy) (x1, y1) (x2, y1) = false := by
    simp [edgeCross]
  have hCD : edgeCross (qx, qy) (x2, y2) (x1, y2) = false := by
    simp [edgeCross]
  have hBC : edgeCross (qx, qy) (x2, y1) (x2, y2)
      = ((decide (qy < y1) != decide (qy < y2)) && decide (qx < x2)) := by
    simp [edgeCross]
  have hDA : edgeCross (qx, qy) (x1, y2) (x1, y1)
      = ((decide (qy < y2) != decide (qy < y1)) && decide (qx < x1)) := by
    simp [edgeCross]
  rw [hAB, hCD, hBC, hDA]
  have hflip : (decide (qy < y2) != decide (qy < y1))
      = (decide (qy < y1) != decide (qy < y2)) := by
    cases hd : decide (qy < y1) <;> cases he : decide (qy < y2) <;> rfl
  rw [hflip]
  simp only [Bool.false_eq_true, if_false, Nat.zero_add, Nat.add_zero]
  rw [bodd_two_ifs, band_bne_band, Bool.and_eq_true, bandIff, bandIff]
  rw [min_comm x2 x1, max_comm x2 x1]
  tauto

theorem bool_eq_of_iff {a b : Bool} (h : a = true ↔ b = true) : a = b := by
  cases a <;> cases b <;> simp_all

/-- C8: a two-corner rectangle shape materializes to the single rect
`QRectF(x1, y1, x2-x1, y2-y1)`, and under the even-odd containment test
this behaves exactly as the normalized rectangle
`[min x1 x2, max x1 x2) × [min y1 y2, max y1 y2)` — so corner order and
negative extents are immaterial; in particular with corners `(0,0)` and
`(10,10)`, in either order, `(5,5)` is contained and `(15,5)` is not. -/
theorem c8_rectangle_containment :
    (∀ x1 y1 x2 y2 qx qy : ℚ,
      Shape.containsPoint
          ⟨ShapeType.rectangle, [.pt x1 y1, .pt x2 y2], [], 0, false⟩ (qx, qy)
        = .ok true ↔
        (min x1 x2 ≤ qx ∧ qx < max x1 x2 ∧ min y1 y2 ≤ qy ∧ qy < max y1 y2)) ∧
    (∀ x1 y1 x2 y2 qx qy : ℚ,
      Shape.containsPoint
          ⟨ShapeType.rectangle, [.pt x1 y1, .pt x2 y2], [], 0, false⟩ (qx, qy)
        = Shape.containsPoint
          ⟨ShapeType.rectangle, [.pt x2 y2, .pt x1 y1], [], 0, false⟩ (qx, qy)) ∧
    Shape.containsPoint
        ⟨ShapeType.rectangle, [.pt 0 0, .pt 10 10], [], 0, false⟩ (5, 5)
      = .ok true ∧
    Shape.containsPoint
        ⟨ShapeType.rectangle, [.pt 0 0, .pt 10 10], [], 0, false⟩ (15, 5)
      = .ok false ∧
    Shape.containsPoint
        ⟨ShapeType.rectangle, [.pt 10 10, .pt 0 0], [], 0, false⟩ (5, 5)
      = .ok true ∧
    Shape.containsPoint
        ⟨ShapeType.rectangle, [.pt 10 10, .pt 0 0], [], 0, false⟩ (15, 5)
      = .ok false := by
  have h1 : ∀ x1 y1 x2 y2 qx qy : ℚ,
      Shape.containsPoint
          ⟨ShapeType.rectangle, [.pt x1 y1, .pt x2 y2], [], 0, false⟩ (qx, qy)
        = .ok (pathContains [PathOp.addRect ⟨x1, y1, x2 - x1, y2 - y1⟩]
            (qx, qy)) :=
    fun _ _ _ _ _ _ => rfl
  have hmain : ∀ x1 y1 x2 y2 qx qy : ℚ,
      Shape.containsPoint
          ⟨ShapeType.rectangle, [.pt x1 y1, .pt x2 y2], [], 0, false⟩ (qx, qy)
        = .ok true ↔
        (min x1 x2 ≤ qx ∧ qx < max x1 x2 ∧
          min y1 y2 ≤ qy ∧ qy < max y1 y2) := by
    intro x1 y1 x2 y2 qx qy
    rw [h1]
    simp only [Except.ok.injEq]
    exact pathContains_single_rect x1 y1 x2 y2 qx qy
  have hsym : ∀ x1 y1 x2 y2 qx qy : ℚ,
      Shape.containsPoint
          ⟨ShapeType.rectangle, [.pt x1 y1, .pt x2 y2], [], 0, false⟩ (qx, qy)
        = Shape.containsPoint
          ⟨ShapeType.rectangle, [.pt x2 y2, .pt x1 y1], [], 0, false⟩
          (qx, qy) := by
    intro x1 y1 x2 y2 qx qy
    rw [h1 x1 y1 x2 y2 qx qy, h1 x2 y2 x1 y1 qx qy]
    have hpq : (min x1 x2 ≤ qx ∧ qx < max x1 x2 ∧
        min y1 y2 ≤ qy ∧ qy < max y1 y2) ↔
        (min x2 x1 ≤ qx ∧ qx < max x2 x1 ∧
        min y2 y1 ≤ qy ∧ qy < max y2 y1) := by
      rw [min_comm x2 x1, max_comm x2 x1, min_comm y2 y1, max_comm y2 y1]
    exact congrArg Except.ok (bool_eq_of_iff
      ((pathContains_single_rect x1 y1 x2 y2 qx qy).trans
        (hpq.trans (pathContains_single_rect x2 y2 x1 y1 qx qy).symm)))
  have hoknot : ∀ x1 y1 x2 y2 qx qy : ℚ,
      ¬(min x1 x2 ≤ qx ∧ qx < max x1 x2 ∧
        min y1 y2 ≤ qy ∧ qy < max y1 y2) →
      Shape.containsPoint
          ⟨ShapeType.rectangle, [.pt x1 y1, .pt x2 y2], [], 0, false⟩ (qx, qy)
        = .ok false := by
    intro x1 y1 x2 y2 qx qy hP
    rw [h1]
    cases hb : pathContains [PathOp.addRect ⟨x1, y1, x2 - x1, y2 - y1⟩]
        (qx, qy) with
    | false => rfl
    | true =>
      exact absurd ((pathContains_single_rect x1 y1 x2 y2 qx qy).mp hb) hP
  refine ⟨hmain, hsym, ?_, ?_, ?_, ?_⟩
  · exact (hmain 0 0 10 10 5 5).mpr (by norm_num [min_def, max_def])
  · exact hoknot 0 0 10 10 15 5 (by norm_num [min_def, max_def])
  · rw [hsym 10 10 0 0 5 5]
    exact (hmain 0 0 10 10 5 5).mpr (by norm_num [min_def, max_def])
  · rw [hsym 10 10 0 0 15 5]
    exact hoknot 0 0 10 10 15 5 (by norm_num [min_def, max_def])

/-- C9: `Shape.copy` (`copy.deepcopy`) yields a fully independent value: the
copy's point and segment containers live in fresh heap cells distinct from
the original's, the copied contents are equal, and mutating the copy's
containers (in any way `f`, `g`) leaves the original's point sequence and
segment list unchanged. -/
theorem c9_copy_independent (h : Heap) (s : ShapeRef)
    (hp : s.ptsRef < h.ptsCells.length) (hs : s.segsRef < h.segCells.length)
    (f : List PyVal → List PyVal) (g : List (Int × Int) → List (Int × Int)) :
    (h.copyShape s).2.ptsRef ≠ s.ptsRef ∧
    (h.copyShape s).2.segsRef ≠ s.segsRef ∧
    (h.copyShape s).1.ptsCells.getD (h.copyShape s).2.ptsRef []
      = h.ptsCells.getD s.ptsRef [] ∧
    (h.copyShape s).1.segCells.getD (h.copyShape s).2.segsRef []
      = h.segCells.getD s.segsRef [] ∧
    (((h.copyShape s).1.mutatePoints (h.copyShape s).2.ptsRef f).mutateSegments
        (h.copyShape s).2.segsRef g).ptsCells.getD s.ptsRef []
      = h.ptsCells.getD s.ptsRef [] ∧
    (((h.copyShape s).1.mutatePoints (h.copyShape s).2.ptsRef f).mutateSegments
        (h.copyShape s).2.segsRef g).segCells.getD s.segsRef []
      = h.segCells.getD s.segsRef [] := by
  have hne1 : h.ptsCells.length ≠ s.ptsRef := by omega
  have hne2 : h.segCells.length ≠ s.segsRef := by omega
  have happ1 : ∀ x : List PyVal,
      (h.ptsCells ++ [x]).getD s.ptsRef [] = h.ptsCells.getD s.ptsRef [] := by
    intro x
    simp only [List.getD_eq_getElem?_getD]
    rw [List.getElem?_append_left (by omega)]
  have happ2 : ∀ x : List (Int × Int),
      (h.segCells ++ [x]).getD s.segsRef [] = h.segCells.getD s.segsRef [] := by
    intro x
    simp only [List.getD_eq_getElem?_getD]
    rw [List.getElem?_append_left (by omega)]
  refine ⟨hne1, hne2, ?_, ?_, ?_, ?_⟩
  · simp only [Heap.copyShape, List.getD_eq_getElem?_getD,
      List.getElem?_concat_length, Option.getD_some]
  · simp only [Heap.copyShape, List.getD_eq_getElem?_getD,
      List.getElem?_concat_length, Option.getD_some]
  · show ((h.ptsCells ++ [h.ptsCells.getD s.ptsRef []]).set h.ptsCells.length
      _).getD s.ptsRef [] = h.ptsCells.getD s.ptsRef []
    simp only [List.getD_eq_getElem?_getD]
    rw [List.getElem?_set_ne hne1]
    rw [List.getElem?_append_left (by omega)]
  · show ((h.segCells ++ [h.segCells.getD s.segsRef []]).set h.segCells.length
      _).getD s.segsRef [] = h.segCells.getD s.segsRef []
    simp only [List.getD_eq_getElem?_getD]
    rw [List.getElem?_set_ne hne2]
    rw [List.getElem?_append_left (by omega)]

/-- C9 witness: a concrete heap with one shape; appending a point to the
copy's cell leaves the original's cell unchanged. -/
theorem c9_copy_independent_witness :
    (0 : Nat) < 1 ∧
    ((⟨[[PyVal.pt 1 1]], [[(0, 2)]]⟩ : Heap).copyShape
        ⟨ShapeType.curve, 0, 0, 0, false⟩).2.ptsRef ≠ 0 ∧
    ((((⟨[[PyVal.pt 1 1]], [[(0, 2)]]⟩ : Heap).copyShape
          ⟨ShapeType.curve, 0, 0, 0, false⟩).1.mutatePoints 1
        (fun l => l ++ [PyVal.pt 9 9])).mutateSegments 1
        (fun l => l ++ [(7, 7)])).ptsCells.getD 0 [] = [PyVal.pt 1 1] := by
  have h := c9_copy_independent ⟨[[PyVal.pt 1 1]], [[(0, 2)]]⟩
    ⟨ShapeType.curve, 0, 0, 0, false⟩ (by decide) (by decide)
    (fun l => l ++ [PyVal.pt 9 9]) (fun l => l ++ [(7, 7)])
  exact ⟨by decide, h.1, h.2.2.2.2.1⟩

/-- Invariant characterization of the `nearestVertex` scan loop: starting
from a state `(md, mi)` that correctly summarizes the prefix `pts.take i0`
(either nothing qualified yet, or `mi` holds the earliest strictly-minimal
qualifying index so far), the loop returns `none` exactly on a fully
non-qualifying list, and otherwise the earliest index of minimal distance
among the qualifying points. -/
theorem nvLoop_spec (d : PyVal → ℚ) (eps : ℚ) (pts : List PyVal) :
    ∀ (l : List PyVal) (i0 : Nat) (md : WithTop ℚ) (mi : Option Nat),
    pts.drop i0 = l →
    ((md = ⊤ ∧ mi = none ∧
        ∀ j (hj : j < pts.length), j < i0 → eps < d (pts.get ⟨j, hj⟩)) ∨
      (∃ k, ∃ hk : k < pts.length, mi = some k ∧
        md = ((d (pts.get ⟨k, hk⟩) : ℚ) : WithTop ℚ) ∧
        k < i0 ∧ d (pts.get ⟨k, hk⟩) ≤ eps ∧
        (∀ j (hj : j < pts.length), j < i0 → d (pts.get ⟨j, hj⟩) ≤ eps →
          d (pts.get ⟨k, hk⟩) ≤ d (pts.get ⟨j, hj⟩)) ∧
        (∀ j (hj : j < pts.length), j < k → d (pts.get ⟨j, hj⟩) ≤ eps →
          d (pts.get ⟨k, hk⟩) < d (pts.get ⟨j, hj⟩)))) →
    ((nvLoop d eps l i0 md mi = none →
        ∀ j (hj : j < pts.length), eps < d (pts.get ⟨j, hj⟩)) ∧
      (∀ i, nvLoop d eps l i0 md mi = some i →
        ∃ hi : i < pts.length,
          d (pts.get ⟨i, hi⟩) ≤ eps ∧
          (∀ j (hj : j < pts.length), d (pts.get ⟨j, hj⟩) ≤ eps →
            d (pts.get ⟨i, hi⟩) ≤ d (pts.get ⟨j, hj⟩)) ∧
          (∀ j (hj : j < pts.length), j < i →
            d (pts.get ⟨j, hj⟩) ≤ eps →
            d (pts.get ⟨i, hi⟩) < d (pts.get ⟨j, hj⟩)))) := by
  intro l
  induction l with
  | nil =>
    intro i0 md mi hdrop hinv
    have hlen : pts.length ≤ i0 := by
      have := congrArg List.length hdrop
      simp only [List.length_drop, List.length_nil] at this
      omega
    constructor
    · intro hres j hj
      rcases hinv with ⟨_, hmi, hall⟩ | ⟨k, hk, hmi, _⟩
      · exact hall j hj (lt_of_lt_of_le hj hlen)
      · rw [nvLoop, hmi] at hres
        exact Option.noConfusion hres
    · intro i hres
      rcases hinv with ⟨_, hmi, _⟩ |
        ⟨k, hk, hmi, hmd, hki, hle, hmin, hstrict⟩
      · rw [nvLoop, hmi] at hres
        exact Option.noConfusion hres
      · rw [nvLoop, hmi] at hres
        injection hres with hik
        subst hik
        exact ⟨hk, hle, fun j hj hq => hmin j hj (lt_of_lt_of_le hj hlen) hq,
          fun j hj hji hq => hstrict j hj hji hq⟩
  | cons p rest ih =>
    intro i0 md mi hdrop hinv
    have hi0 : i0 < pts.length := by
      have := congrArg List.length hdrop
      simp only [List.length_drop, List.length_cons] at this
      omega
    have hp : ∀ hh : i0 < pts.length, pts.get ⟨i0, hh⟩ = p := by
      intro hh
      have h0 : (pts.drop i0)[0]? = some p := by rw [hdrop]; simp
      rw [List.getElem?_drop] at h0
      have h2 : pts[i0 + 0]? = some (pts.get ⟨i0, hh⟩) := by
        simp [List.getElem?_eq_getElem hh]
      have := h2.symm.trans h0
      injection this
    have hrest : pts.drop (i0 + 1) = rest := by
      rw [← List.tail_drop, hdrop]
      rfl
    rw [nvLoop]
    by_cases hc : d p ≤ eps ∧ ((d p : ℚ) : WithTop ℚ) < md
    · rw [if_pos hc]
      apply ih (i0 + 1) _ (some i0) hrest
      right
      refine ⟨i0, hi0, rfl, by rw [hp hi0], Nat.lt_succ_self i0,
        by rw [hp hi0]; exact hc.1, ?_, ?_⟩
      · intro j hj hji0 hq
        rcases Nat.lt_succ_iff_lt_or_eq.mp hji0 with hj1 | hj1
        · rcases hinv with ⟨hmd, _, hall⟩ |
            ⟨k, hk, hmi, hmd, hki, hle, hmin, _⟩
          · exact absurd hq (not_le.mpr (hall j hj hj1))
          · have h1 : d (pts.get ⟨k, hk⟩) ≤ d (pts.get ⟨j, hj⟩) :=
              hmin j hj hj1 hq
            have h2 : d p < d (pts.get ⟨k, hk⟩) := by
              have h3 := hc.2
              rw [hmd] at h3
              exact_mod_cast h3
            rw [hp hi0]
            exact le_of_lt (lt_of_lt_of_le h2 h1)
        · subst hj1
          rw [hp hi0]
      · intro j hj hji0 hq
        rcases hinv with ⟨hmd, _, hall⟩ |
          ⟨k, hk, hmi, hmd, hki, hle, hmin, _⟩
        · exact absurd hq (not_le.mpr (hall j hj hji0))
        · have h1 : d (pts.get ⟨k, hk⟩) ≤ d (pts.get ⟨j, hj⟩) :=
            hmin j hj hji0 hq
          have h2 : d p < d (pts.get ⟨k, hk⟩) := by
            have h3 := hc.2
            rw [hmd] at h3
            exact_mod_cast h3
          rw [hp hi0]
          exact lt_of_lt_of_le h2 h1
    · rw [if_neg hc]
      apply ih (i0 + 1) md mi hrest
      rcases hinv with ⟨hmd, hmi, hall⟩ |
        ⟨k, hk, hmi, hmd, hki, hle, hmin, hstrict⟩
      · left
        refine ⟨hmd, hmi, ?_⟩
        intro j hj hj1
        rcases Nat.lt_succ_iff_lt_or_eq.mp hj1 with hj2 | hj2
        · exact hall j hj hj2
        · subst hj2
          rw [hp hj]
          by_contra hle2
          exact hc ⟨not_lt.mp hle2, by rw [hmd]; exact WithTop.coe_lt_top _⟩
      · right
        refine ⟨k, hk, hmi, hmd, Nat.lt_succ_of_lt hki, hle, ?_, hstrict⟩
        intro j hj hj1 hq
        rcases Nat.lt_succ_iff_lt_or_eq.mp hj1 with hj2 | hj2
        · exact hmin j hj hj2 hq
        · subst hj2
          rw [hp hj] at hq
          have h4 : ¬(((d p : ℚ) : WithTop ℚ) < md) := fun hlt => hc ⟨hq, hlt⟩
          rw [hmd] at h4
          have h5 := not_lt.mp h4
          rw [hp hj]
          exact_mod_cast h5

/-- C7: the `nearestVertex` scan returns `none` when every point's distance
exceeds `epsilon`; when some point qualifies it returns an index, and any
returned index is a qualifying index of minimal distance, strictly closer
than every earlier qualifying index (ties keep the earliest index, since
the comparison is a strict `<`).  The distance function `d` is arbitrary,
standing for `labelme.utils.distance(p - point)`. -/
theorem c7_nearestVertex_spec (s : Shape) (d : PyVal → ℚ) (eps : ℚ) :
    ((∀ p ∈ s.points, eps < d p) → s.nearestVertex d eps = none) ∧
    ((∃ p ∈ s.points, d p ≤ eps) → ∃ i, s.nearestVertex d eps = some i) ∧
    (∀ i, s.nearestVertex d eps = some i →
      ∃ hi : i < s.points.length,
        d (s.points.get ⟨i, hi⟩) ≤ eps ∧
        (∀ j (hj : j < s.points.length), d (s.points.get ⟨j, hj⟩) ≤ eps →
          d (s.points.get ⟨i, hi⟩) ≤ d (s.points.get ⟨j, hj⟩)) ∧
        (∀ j (hj : j < s.points.length), j < i →
          d (s.points.get ⟨j, hj⟩) ≤ eps →
          d (s.points.get ⟨i, hi⟩) < d (s.points.get ⟨j, hj⟩))) := by
  have hspec := nvLoop_spec d eps s.points s.points 0 ⊤ none rfl
    (Or.inl ⟨rfl, rfl, fun j hj h0 => absurd h0 (Nat.not_lt_zero j)⟩)
  refine ⟨?_, ?_, hspec.2⟩
  · intro hall
    cases hres : s.nearestVertex d eps with
    | none => rfl
    | some i =>
      obtain ⟨hi, hle, -, -⟩ := hspec.2 i hres
      exact absurd hle (not_le.mpr (hall _ (s.points.get_mem i hi)))
  · rintro ⟨p, hmem, hple⟩
    cases hres : s.nearestVertex d eps with
    | none =>
      obtain ⟨n, hn⟩ := List.mem_iff_get.mp hmem
      have h6 := hspec.1 hres n.1 n.2
      simp only [Fin.eta] at h6
      rw [hn] at h6
      exact absurd hple (not_le.mpr h6)
    | some i => exact ⟨i, rfl⟩

/-- C7 witness: with the x-coordinate as distance on the points
`[(0,9), (2,7), (0,5)]` and `epsilon = 1`, the first and third points tie
at distance 0 and the earliest index 0 is returned, qualifying and
minimal. -/
theorem c7_nearestVertex_spec_witness :
    Shape.nearestVertex ⟨ShapeType.polygon, [.pt 0 9, .pt 2 7, .pt 0 5], [],
        0, false⟩
      (fun v => match v with | .pt x _ => x | .intZero => 99) 1
      = some 0 ∧
    (∃ hi : 0 < ([PyVal.pt 0 9, .pt 2 7, .pt 0 5] : List PyVal).length,
      (fun v => match v with | PyVal.pt x _ => x | PyVal.intZero => 99)
        (([PyVal.pt 0 9, .pt 2 7, .pt 0 5] : List PyVal).get ⟨0, hi⟩) ≤ 1) := by
  have h := (c7_nearestVertex_spec
    ⟨ShapeType.polygon, [.pt 0 9, .pt 2 7, .pt 0 5], [], 0, false⟩
    (fun v => match v with | .pt x _ => x | .intZero => 99) 1).2.2
    0 (by decide)
  exact ⟨by decide, ⟨h.1, h.2.1⟩⟩

end Labelme
